import Mathlib

/-!
Verification development for the dial-speed analyzer (src/streamlit_app.py).

The embedding models, from the source code:
  - exact fractional arithmetic (`Frac`) standing for the float arithmetic of the
    DuckDB aggregates (AVG, QUANTILE_CONT, ROUND) — exact fractions of integers,
    kernel-computable, bridged to `Rat` for order-theoretic proofs;
  - the ingestion pipeline `parse_and_filter_df`;
  - the three query shapes of `DataMgr` (`get_summary`, `get_weekly_summary`,
    `get_overall_stats`) over the duckdb SQL text they build;
  - the `st.cache_data`-cached `compute_all` and the two admin tabs (cache model);
  - the Drive helpers `download_file`, `ensure_local_partitions_for_dates`,
    `delete_file_or_folder`, `delete_dates_remote_and_local`, `list_local_dates`
    and the sidebar missing-date computation.

Library behaviour that the Python code calls (pandas timestamp/number parsing,
the network transfer outcomes of the Drive client) is passed in as explicit
environments, so theorems quantify over every behaviour of those libraries.
-/

/-! ## Exact fraction arithmetic

DuckDB computes AVG / QUANTILE_CONT / ROUND on doubles; all values reaching them
here are exact, so we model the arithmetic with exact unnormalized fractions.
The denominator of every fraction built below is positive by construction. -/

/-- An unnormalized fraction `num / den`.  All constructors used in the model keep
`den` positive. -/
structure Frac where
  num : Int
  den : Int
deriving DecidableEq

/-- The fraction has a positive denominator (representation invariant). -/
def Frac.pos (a : Frac) : Prop := 0 < a.den

/-- Value of a fraction as a rational number (proof-side semantics). -/
def Frac.val (a : Frac) : Rat := (a.num : Rat) / (a.den : Rat)

def Frac.ofInt (n : Int) : Frac := ⟨n, 1⟩

def Frac.add (a b : Frac) : Frac := ⟨a.num * b.den + b.num * a.den, a.den * b.den⟩

def Frac.sub (a b : Frac) : Frac := ⟨a.num * b.den - b.num * a.den, a.den * b.den⟩

def Frac.mul (a b : Frac) : Frac := ⟨a.num * b.num, a.den * b.den⟩

def Frac.neg (a : Frac) : Frac := ⟨-a.num, a.den⟩

/-- Division by a positive natural number (used for AVG's division by the count). -/
def Frac.divNat (a : Frac) (k : Nat) : Frac := ⟨a.num, a.den * (k : Int)⟩

/-- Comparison by cross multiplication; correct when both denominators are positive. -/
def Frac.le (a b : Frac) : Bool := decide (a.num * b.den ≤ b.num * a.den)

def Frac.lt (a b : Frac) : Bool := decide (a.num * b.den < b.num * a.den)

/-- Floor of the fraction: Euclidean integer division, which is floor division for the
positive denominators maintained by the model. -/
def Frac.floor (a : Frac) : Int := a.num / a.den

def Frac.half : Frac := ⟨1, 2⟩

/-- Model of DuckDB `ROUND(x)` on doubles: round half away from zero. -/
def duckRound (x : Frac) : Int :=
  if x.lt (Frac.ofInt 0) then -(((Frac.neg x).add Frac.half).floor)
  else (x.add Frac.half).floor

/-- Model of the SQL aggregate `MIN` over a group of values (groups are nonempty;
the default is never used on the paths the queries take). -/
def minD : List Int → Int → Int
  | [], d => d
  | x :: t, _ => t.foldl min x

/-- Model of the SQL aggregate `AVG` over a group of integer dial speeds. -/
def fmean (l : List Int) : Frac := (Frac.ofInt l.sum).divNat l.length

/-- The fraction `p / 100` that `get_summary` passes to `QUANTILE_CONT` for the
percentile `p` (Python `p/100.0`). -/
def pctFrac (p : Nat) : Frac := ⟨(p : Int), 100⟩

/-- Model of DuckDB `QUANTILE_CONT(values, q)`: sort ascending, take the linearly
interpolated value at position `(n - 1) * q`. -/
def quantileCont (l : List Int) (q : Frac) : Frac :=
  let s := List.insertionSort (fun a b : Int => a ≤ b) l
  let h := (Frac.ofInt ((l.length : Int) - 1)).mul q
  let i := h.floor.toNat
  let g := h.sub (Frac.ofInt h.floor)
  let a := Frac.ofInt (s.getD i 0)
  let b := Frac.ofInt (s.getD (i + 1) 0)
  a.add (g.mul (b.sub a))

/-- Proof-side (rational) version of the linear interpolation at position `h` in the
sorted list `s`; `quantileCont` is bridged to this for the monotonicity proof. -/
def qinterp (s : List Int) (h : Rat) : Rat :=
  (s.getD ⌊h⌋.toNat 0 : Rat) + (h - ⌊h⌋) * ((s.getD (⌊h⌋.toNat + 1) 0 : Rat) - (s.getD ⌊h⌋.toNat 0 : Rat))

/-- Proof-side (rational) version of `duckRound`. -/
def rround (r : Rat) : Int := if r < 0 then -⌊-r + 1/2⌋ else ⌊r + 1/2⌋

/-- First-occurrence deduplication (model of SQL `GROUP BY` key collection and of
Python set iteration where order is irrelevant). -/
def distinctAux {α : Type} [DecidableEq α] (seen : List α) : List α → List α
  | [] => []
  | a :: t => if a ∈ seen then distinctAux seen t else a :: distinctAux (a :: seen) t

def distinct {α : Type} [DecidableEq α] (l : List α) : List α := distinctAux [] l

instance {ε α : Type} [DecidableEq ε] [DecidableEq α] : DecidableEq (Except ε α)
  | .ok a, .ok b =>
      if h : a = b then .isTrue (by rw [h]) else .isFalse (fun hh => by cases hh; exact h rfl)
  | .error a, .error b =>
      if h : a = b then .isTrue (by rw [h]) else .isFalse (fun hh => by cases hh; exact h rfl)
  | .ok _, .error _ => .isFalse (fun hh => by cases hh)
  | .error _, .ok _ => .isFalse (fun hh => by cases hh)

/-- Whitespace as Python `str.strip` removes it (the characters occurring in the data). -/
def isWS (c : Char) : Bool := decide (c = ' ' ∨ c = '\t' ∨ c = '\n' ∨ c = '\r')

/-- Model of Python `str.strip()` on the character list. -/
def stripChars (l : List Char) : List Char :=
  ((l.dropWhile isWS).reverse.dropWhile isWS).reverse

/-- Model of Python `str.strip()` (pandas `.str.strip()` applies it elementwise). -/
def pyStrip (s : String) : String := String.mk (stripChars s.data)

/-! ## Ingestion pipeline: `parse_and_filter_df` (src/streamlit_app.py lines 638-661)

pandas behaviour is abstracted in `PdEnv`: `toDatetime…` return `none` where
`pd.to_datetime(..., errors="coerce")` returns `NaT`, `toNumeric` returns `none`
where `pd.to_numeric(..., errors="coerce")` returns `NaN`.  Timestamps are seconds
since an epoch. -/

structure PdEnv where
  toDatetimeDayfirst : String → Option Int
  toDatetime : String → Option Int
  toNumeric : String → Option Int

/-- A row of the raw uploaded table, restricted to the six required columns.
`Level1 = none` models a missing (NaN) grouping key. -/
structure RawRow where
  CAMPAIGNNAME : String
  Level1 : Option String
  CallStartdate : String
  Insert_Dt : String
  attempt : String
  CallStatus : String
deriving DecidableEq

/-- A row of the output of `parse_and_filter_df`.  `dialSpeed = none` models a NaN
"Dial Speed (seconds)" (some timestamp failed to parse); `interval`/`insertDt`
are `none` where `pd.to_datetime(df.Insert_Dt, errors="coerce")` gave `NaT`. -/
structure ParsedRow where
  CAMPAIGN : String
  Level1 : String
  attempt : Int
  CallStatus : String
  dialSpeed : Option Int
  interval : Option Int
  insertDt : Option Int
deriving DecidableEq

def requiredColumns : List String :=
  ["CAMPAIGNNAME", "Level1", "CallStartdate", "Insert_Dt", "attempt", "CallStatus"]

/-- Lines 644-646: `dropna(subset=["Level1"])`, then `astype(str).str.strip()`. -/
def pfStep1 (rows : List RawRow) : List RawRow :=
  (rows.filter (fun r => r.Level1.isSome)).map
    (fun r => { r with Level1 := some (pyStrip (r.Level1.getD "")) })

/-- Line 646: `df = df[df["Level1"] != ""]`. -/
def pfStep2 (rows : List RawRow) : List RawRow :=
  rows.filter (fun r => decide (r.Level1 ≠ some ""))

/-- Lines 649-651: coerce `attempt` (non-numeric becomes 0), strip `CallStatus`,
keep rows with `attempt == 1` and `CallStatus == "Connected"`. -/
def pfStep3 (env : PdEnv) (rows : List RawRow) : List RawRow :=
  rows.filter (fun r =>
    (((env.toNumeric r.attempt).getD 0) == 1) && (pyStrip r.CallStatus == "Connected"))

/-- Lines 654-660: rename CAMPAIGNNAME, compute `|CallStartdate - Insert_Dt|` in
seconds (NaN when either side failed to parse — note the code does NOT drop such
rows), hour interval, parsed Insert_Dt. -/
def pfFinal (env : PdEnv) (r : RawRow) : ParsedRow :=
  { CAMPAIGN := r.CAMPAIGNNAME
    Level1 := r.Level1.getD ""
    attempt := (env.toNumeric r.attempt).getD 0
    CallStatus := pyStrip r.CallStatus
    dialSpeed :=
      match env.toDatetimeDayfirst r.CallStartdate, env.toDatetimeDayfirst r.Insert_Dt with
      | some a, some b => some |a - b|
      | _, _ => none
    interval := (env.toDatetime r.Insert_Dt).map (fun t => (t / 3600) % 24)
    insertDt := env.toDatetime r.Insert_Dt }

/-- Model of `parse_and_filter_df` (lines 638-661).  The early `if df.empty: return df`
returns are semantically the identity on the empty list, so the chain below is the
straight-line composition of the four steps. -/
def parse_and_filter_df (env : PdEnv) (cols : List String) (rows : List RawRow) :
    Except String (List ParsedRow) :=
  if requiredColumns.filter (fun c => ¬ cols.contains c) = [] then
    .ok ((pfStep3 env (pfStep2 (pfStep1 rows))).map (pfFinal env))
  else
    .error ("Missing required columns: " ++
      String.intercalate ", " (requiredColumns.filter (fun c => ¬ cols.contains c)))

/-- A pandas environment in which the string "garbage" fails timestamp parsing —
`pd.to_datetime("garbage", dayfirst=True, errors="coerce")` is indeed `NaT`. -/
def c1Env : PdEnv :=
  { toDatetimeDayfirst := fun s => if s = "garbage" then none else some 100
    toDatetime := fun _ => some 100
    toNumeric := fun s => if s = "1" then some 1 else none }

/-- A raw row that passes every filter but whose CallStartdate fails to parse. -/
def c1Row : RawRow :=
  { CAMPAIGNNAME := "C", Level1 := some "x", CallStartdate := "garbage"
    Insert_Dt := "02-01-2024 10:00", attempt := "1", CallStatus := "Connected" }

/-- The output row the code produces for `c1Row`: retained, with NaN dial speed. -/
def c1Out : ParsedRow :=
  { CAMPAIGN := "C", Level1 := "x", attempt := 1, CallStatus := "Connected"
    dialSpeed := none, interval := some 0, insertDt := some 100 }

/-- A fully well-behaved raw row (both timestamps parse), for the witness. -/
def c1GoodRow : RawRow :=
  { CAMPAIGNNAME := "C", Level1 := some " y ", CallStartdate := "good"
    Insert_Dt := "also good", attempt := "1", CallStatus := " Connected " }

/-- Output of the pipeline on `c1GoodRow` under `c1Env`. -/
def c1GoodOut : ParsedRow :=
  { CAMPAIGN := "C", Level1 := "y", attempt := 1, CallStatus := "Connected"
    dialSpeed := some 0, interval := some 0, insertDt := some 100 }

/-! ## Query engine (`DataMgr`, src/streamlit_app.py lines 528-632)

A stored row of the partitioned parquet dataset as the queries see it
(hive partitioning adds the `Date` column).  Dates and week starts are day
indices; dial speeds are integers (the claims only need exact values). -/

structure SRow where
  date : Nat
  campaign : String
  level1 : String
  interval : Nat
  speed : Int
deriving DecidableEq

/-- A grouping dimension accepted by `get_summary`'s `group_by` list. -/
inductive Dim
  | CAMPAIGN
  | Date
  | Interval
deriving DecidableEq

/-- A value of a grouping dimension. -/
inductive GVal
  | s (v : String)
  | n (v : Nat)
deriving DecidableEq

def dimVal : Dim → SRow → GVal
  | .CAMPAIGN, r => .s r.campaign
  | .Date, r => .n r.date
  | .Interval, r => .n r.interval

/-- The tuple of grouping-dimension values of a row. -/
def gKey (g : List Dim) (r : SRow) : List GVal := g.map (fun d => dimVal d r)

def gvalLe : GVal → GVal → Bool
  | .n a, .n b => decide (a ≤ b)
  | .s a, .s b => decide (a ≤ b)
  | .n _, .s _ => true
  | .s _, .n _ => false

/-- Lexicographic order on grouping-key tuples (the `ORDER BY` of `get_summary`). -/
def gkeyLe : List GVal → List GVal → Bool
  | [], _ => true
  | _ :: _, [] => false
  | a :: as, b :: bs => if a = b then gkeyLe as bs else gvalLe a b

/-- The `WHERE Date BETWEEN d1 AND d2 AND CAMPAIGN IN camps` filter shared by all
three queries. -/
def filtRows (rows : List SRow) (d1 d2 : Nat) (camps : List String) : List SRow :=
  rows.filter (fun r => decide (d1 ≤ r.date ∧ r.date ≤ d2 ∧ r.campaign ∈ camps))

/-- A row of the `get_summary` result table. -/
structure SummaryRow where
  key : List GVal
  callCount : Int
  avgDS : Int
  pcts : List (Nat × Int)
deriving DecidableEq

/-- A row of the `get_weekly_summary` result table. -/
structure WeeklyRow where
  weekStart : Nat
  campaign : String
  callCount : Int
  avgDS : Int
  pcts : List (Nat × Int)
deriving DecidableEq

/-- The `get_overall_stats` record.  The SQL always returns one row; when the
`MinSpeeds` CTE is empty, `AVG` and the quantiles are SQL `NULL` (`none` here). -/
structure Stats where
  callCount : Int
  avgDS : Option Int
  pcts : List (Nat × Option Int)
deriving DecidableEq

/-- `default_stats` of `get_overall_stats` (line 600): an all-zero record. -/
def defaultStats (pv : List Nat) : Stats :=
  { callCount := 0, avgDS := some 0, pcts := pv.map (fun p => (p, some 0)) }

/-- The `MinSpeeds` CTE of `get_summary` (lines 552-557): per distinct
`(group_by, Level1)` tuple among the date/campaign-filtered rows, the minimum
dial speed. -/
def sqlMinSpeeds (rows : List SRow) (d1 d2 : Nat) (camps : List String) (g : List Dim) :
    List (List GVal × Int) :=
  let fr := filtRows rows d1 d2 camps
  (distinct (fr.map (fun r => (gKey g r, r.level1)))).map
    (fun t => (t.1,
      minD ((fr.filter (fun r => decide (gKey g r = t.1 ∧ r.level1 = t.2))).map
        (fun r => r.speed)) 0))

/-- The outer `SELECT` of `get_summary` (lines 558-564): group the CTE by the
grouping tuple, count, round the mean, round each continuous quantile, ordered by
the grouping tuple. -/
def sqlSummary (rows : List SRow) (d1 d2 : Nat) (camps : List String) (g : List Dim)
    (pv : List Nat) : List SummaryRow :=
  let ms := sqlMinSpeeds rows d1 d2 camps g
  (List.insertionSort (fun a b => gkeyLe a b = true) (distinct (ms.map Prod.fst))).map
    (fun k =>
      let obs := (ms.filter (fun o => decide (o.1 = k))).map Prod.snd
      { key := k
        callCount := (obs.length : Int)
        avgDS := duckRound (fmean obs)
        pcts := pv.map (fun p => (p, duckRound (quantileCont obs (pctFrac p)))) })

/-- Model of DuckDB `DATE_TRUNC('week', Date)` on day indices: the first day of the
7-day block containing the date. -/
def weekStart (d : Nat) : Nat := d - d % 7

/-- Order of the weekly result: week descending, then campaign ascending (line 591). -/
def wkOrder (a b : Nat × String) : Bool :=
  if a.1 = b.1 then decide (a.2 ≤ b.2) else decide (b.1 < a.1)

/-- The `get_weekly_summary` query (lines 575-592): the CTE groups by
(week, CAMPAIGN, Level1) with `MIN`, the outer select aggregates by (week, CAMPAIGN). -/
def sqlWeekly (rows : List SRow) (d1 d2 : Nat) (camps : List String) (pv : List Nat) :
    List WeeklyRow :=
  let fr := filtRows rows d1 d2 camps
  let ms := (distinct (fr.map (fun r => (weekStart r.date, r.campaign, r.level1)))).map
    (fun t => ((t.1, t.2.1),
      minD ((fr.filter (fun r =>
        decide (weekStart r.date = t.1 ∧ r.campaign = t.2.1 ∧ r.level1 = t.2.2))).map
        (fun r => r.speed)) 0))
  (List.insertionSort (fun a b => wkOrder a b = true) (distinct (ms.map Prod.fst))).map
    (fun k =>
      let obs := (ms.filter (fun o => decide (o.1 = k))).map Prod.snd
      { weekStart := k.1
        campaign := k.2
        callCount := (obs.length : Int)
        avgDS := duckRound (fmean obs)
        pcts := pv.map (fun p => (p, duckRound (quantileCont obs (pctFrac p)))) })

/-- The `get_overall_stats` query (lines 603-614): the CTE groups by `Level1` alone
over the whole filtered range; the outer select aggregates the single group set. -/
def sqlOverall (rows : List SRow) (d1 d2 : Nat) (camps : List String) (pv : List Nat) :
    Stats :=
  let fr := filtRows rows d1 d2 camps
  let obs := (distinct (fr.map (fun r => r.level1))).map
    (fun l1 => minD ((fr.filter (fun r => decide (r.level1 = l1))).map (fun r => r.speed)) 0)
  if obs = [] then
    { callCount := 0, avgDS := none, pcts := pv.map (fun p => (p, none)) }
  else
    { callCount := (obs.length : Int)
      avgDS := some (duckRound (fmean obs))
      pcts := pv.map (fun p => (p, some (duckRound (quantileCont obs (pctFrac p))))) }

/-- The duckdb connection as the wrappers see it: each query either returns a result
table or raises (`.error`), which the wrappers catch. -/
structure QueryExec where
  summary : Nat → Nat → List String → List Dim → List Nat → Except String (List SummaryRow)
  weekly : Nat → Nat → List String → List Nat → Except String (List WeeklyRow)
  overall : Nat → Nat → List String → List Nat → Except String Stats

/-- The healthy executor: the SQL semantics above, never raising. -/
def duckExec (rows : List SRow) : QueryExec :=
  { summary := fun d1 d2 camps g pv => .ok (sqlSummary rows d1 d2 camps g pv)
    weekly := fun d1 d2 camps pv => .ok (sqlWeekly rows d1 d2 camps pv)
    overall := fun d1 d2 camps pv => .ok (sqlOverall rows d1 d2 camps pv) }

/-- `DataMgr.get_summary` (lines 546-569): guard on empty campaign set or empty
grouping list, then run the query, catching any fault into an empty table. -/
def DataMgr.get_summary (db : QueryExec) (d1 d2 : Nat) (camps : List String)
    (group_by : List Dim) (pv : List Nat) : List SummaryRow :=
  if camps = [] ∨ group_by = [] then []
  else
    match db.summary d1 d2 camps group_by pv with
    | .ok r => r
    | .error _ => []

/-- `DataMgr.get_weekly_summary` (lines 571-597): guard on empty campaign set, run,
catch any fault (after `st.error` logging) into an empty table. -/
def DataMgr.get_weekly_summary (db : QueryExec) (d1 d2 : Nat) (camps : List String)
    (pv : List Nat) : List WeeklyRow :=
  if camps = [] then []
  else
    match db.weekly d1 d2 camps pv with
    | .ok r => r
    | .error _ => []

/-- `DataMgr.get_overall_stats` (lines 599-619): guard on empty campaign set, run,
catch any fault into the zero-valued `default_stats` record. -/
def DataMgr.get_overall_stats (db : QueryExec) (d1 d2 : Nat) (camps : List String)
    (pv : List Nat) : Stats :=
  if camps = [] then defaultStats pv
  else
    match db.overall d1 d2 camps pv with
    | .ok r => r
    | .error _ => defaultStats pv

/-- Modelled from the claim's words (step 1): for each (G, Level1) tuple among rows
in the inclusive date range whose campaign is in the selected set, take the minimum
dial_speed_seconds — one minimum-speed observation per (G, Level1) pair. -/
def specMinObservations (rows : List SRow) (d1 d2 : Nat) (camps : List String)
    (g : List Dim) : List (List GVal × Int) :=
  let sel := rows.filter (fun r => decide (d1 ≤ r.date ∧ r.date ≤ d2 ∧ r.campaign ∈ camps))
  (distinct (sel.map (fun r => (gKey g r, r.level1)))).map
    (fun t => (t.1,
      minD ((sel.filter (fun r => decide (gKey g r = t.1 ∧ r.level1 = t.2))).map
        (fun r => r.speed)) 0))

/-- Modelled from the claim's words (step 2): aggregate the minimum-speed
observations by G into a count, an arithmetic mean rounded to the nearest integer,
and for each requested percentile p the continuous (linearly interpolated) quantile
at p/100 rounded to the nearest integer. -/
def specAggregateByG (obs : List (List GVal × Int)) (pv : List Nat) : List SummaryRow :=
  (List.insertionSort (fun a b => gkeyLe a b = true) (distinct (obs.map Prod.fst))).map
    (fun k =>
      let vals := (obs.filter (fun o => decide (o.1 = k))).map Prod.snd
      { key := k
        callCount := (vals.length : Int)
        avgDS := duckRound (fmean vals)
        pcts := pv.map (fun p => (p, duckRound (quantileCont vals (pctFrac p)))) })

/-- The two-step computation the claim describes. -/
def specGroupedSummary (rows : List SRow) (d1 d2 : Nat) (camps : List String)
    (g : List Dim) (pv : List Nat) : List SummaryRow :=
  specAggregateByG (specMinObservations rows d1 d2 camps g) pv

/-- The dataset of the spec's overall-stats scenario: dial speeds [10,20,30] on day 1,
[5] on day 2, [40,50] on day 3, campaign "A", each record its own grouping key. -/
def c5Rows : List SRow :=
  [ { date := 1, campaign := "A", level1 := "k1", interval := 0, speed := 10 },
    { date := 1, campaign := "A", level1 := "k2", interval := 0, speed := 20 },
    { date := 1, campaign := "A", level1 := "k3", interval := 0, speed := 30 },
    { date := 2, campaign := "A", level1 := "k4", interval := 0, speed := 5 },
    { date := 3, campaign := "A", level1 := "k5", interval := 0, speed := 40 },
    { date := 3, campaign := "A", level1 := "k6", interval := 0, speed := 50 } ]

/-- A two-row dataset for the grouped-summary witness. -/
def c2Rows : List SRow :=
  [ { date := 1, campaign := "A", level1 := "x", interval := 9, speed := 12 },
    { date := 1, campaign := "A", level1 := "x", interval := 9, speed := 7 } ]

/-- An executor whose every query raises, for the error-handling witness. -/
def c4BadExec : QueryExec :=
  { summary := fun _ _ _ _ _ => .error "boom"
    weekly := fun _ _ _ _ => .error "boom"
    overall := fun _ _ _ _ => .error "boom" }

/-! ## Result cache (`compute_all`, src/streamlit_app.py lines 791-804) and the two
admin tabs (lines 828-885).

`compute_all` is an `st.cache_data` function keyed by `(d1q, d2q, camps, pvals)`;
its cache persists across reruns.  We model the locally visible partition data and
the cache, and the overall-stats component of the cached tuple. -/

/-- The cache key of `compute_all`: date range, campaign tuple, percentile tuple. -/
abbrev QKey := Nat × Nat × List String × List Nat

structure AppState where
  rows : List SRow
  cache : List (QKey × Stats)
deriving DecidableEq

def cacheFind : List (QKey × Stats) → QKey → Option Stats
  | [], _ => none
  | (k, v) :: t, q => if k = q then some v else cacheFind t q

/-- A dashboard run at key `k`: `st.cache_data` returns the cached value when the
key is present; otherwise `compute_all` runs the queries and the result is cached. -/
def dashboard_query (s : AppState) (k : QKey) : AppState × Stats :=
  match cacheFind s.cache k with
  | some v => (s, v)
  | none =>
      let v := DataMgr.get_overall_stats (duckExec s.rows) k.1 k.2.1 k.2.2.1 k.2.2.2
      ({ s with cache := (k, v) :: s.cache }, v)

/-- The Import Data tab (lines 849-861): `write_partitioned_parquet` adds the new
rows to the local partitions, then the upload runs; `compute_all.clear()` is called
only when the upload succeeds (on failure only `st.error` is shown). -/
def commit_import (s : AppState) (newRows : List SRow) (uploadOk : Bool) : AppState :=
  let s2 : AppState := { s with rows := s.rows ++ newRows }
  if uploadOk then { s2 with cache := [] } else s2

/-- The Manage Data tab (lines 878-885): `delete_dates_remote_and_local` removes the
selected date partitions and `st.rerun()` follows — the code calls no
`compute_all.clear()` on this path, so the cache is kept as is. -/
def manage_delete (s : AppState) (ds : List Nat) : AppState :=
  { rows := s.rows.filter (fun r => decide (¬ r.date ∈ ds)), cache := s.cache }

/-- The failing trace for the cache-invalidation claim. -/
def c3Row : SRow := { date := 1, campaign := "A", level1 := "L", interval := 0, speed := 7 }

def c3Key : QKey := (1, 1, ["A"], [95])

/-- Import one row for day 1 (upload succeeds), then run the dashboard at `c3Key`
(which caches its result). -/
def c3AfterQuery : AppState :=
  (dashboard_query (commit_import { rows := [], cache := [] } [c3Row] true) c3Key).1

/-- Then delete day 1 from the Manage Data tab. -/
def c3AfterDelete : AppState := manage_delete c3AfterQuery [1]

/-! ## Remote store adapter: `download_file` (src/streamlit_app.py lines 403-451)

The network is an environment: `chunk a` is the outcome of the chunked transfer on
attempt `a` (on failure it may leave arbitrary partial bytes in the `.part` file);
`fallback` is the outcome of the final whole-object transfer.  The output records
the visible effects: final-path content, `.part` content, the sleeps performed,
whether the fallback ran, and the raised error if any. -/

inductive ChunkRes
  | ok (content : String)
  | fail (err : String) (part : String)
deriving DecidableEq

structure DLEnv where
  chunk : Nat → ChunkRes
  fallback : Except String String

structure DLOut where
  ok : Bool
  err : Option String
  finalFile : Option String
  tmpFile : Option String
  sleeps : List Nat
  usedFallback : Bool
deriving DecidableEq

/-- The backoff before the next attempt: `time.sleep(min(2 ** attempt, 10))`. -/
def backoff (attempt : Nat) : Nat := min (2 ^ attempt) 10

/-- The retry loop of `download_file`.  A successful chunked attempt replaces the
temporary file onto the final path and returns.  On the last attempt's failure the
one-shot fallback runs; if it succeeds the content is written to the temporary path
and replaced onto the final path, otherwise the temporary file is removed and the
original (last chunked) error is re-raised. -/
def dlLoop (env : DLEnv) (finalInit : Option String) (maxA : Nat) :
    Nat → Nat → List Nat → DLOut
  | 0, _, sleeps =>
      { ok := false, err := some "exhausted", finalFile := finalInit, tmpFile := none
        sleeps := sleeps, usedFallback := false }
  | fuel + 1, attempt, sleeps =>
      match env.chunk attempt with
      | .ok c =>
          { ok := true, err := none, finalFile := some c, tmpFile := none
            sleeps := sleeps, usedFallback := false }
      | .fail e _ =>
          if attempt == maxA then
            match env.fallback with
            | .ok c =>
                { ok := true, err := none, finalFile := some c, tmpFile := none
                  sleeps := sleeps, usedFallback := true }
            | .error _ =>
                { ok := false, err := some e, finalFile := finalInit, tmpFile := none
                  sleeps := sleeps, usedFallback := true }
          else
            dlLoop env finalInit maxA fuel (attempt + 1) (sleeps ++ [backoff attempt])

/-- `download_file` with its default budget of 4 attempts; `finalInit` is whatever
the final path held before the call. -/
def download_file (env : DLEnv) (finalInit : Option String) : DLOut :=
  dlLoop env finalInit 4 4 1 []

/-- Every chunked attempt from 1 to `k` fails. -/
def chunkFailsThrough (env : DLEnv) (k : Nat) : Prop :=
  ∀ a, 1 ≤ a → a ≤ k → ∃ e p, env.chunk a = ChunkRes.fail e p

/-- A network where every chunked attempt and the fallback fail. -/
def c6Env : DLEnv :=
  { chunk := fun a => ChunkRes.fail ("chunk error " ++ toString a) "partbytes"
    fallback := .error "fallback error" }

/-! ## Partition sync: `ensure_local_partitions_for_dates` (lines 479-500)

The environment holds what the code consults: which dates are locally present
(directory exists and is non-empty, line 486), the remote folders under the root
with their children (lines 483, 491-494), and the outcome of each file download.
The output records which files were downloaded and which produced the non-fatal
`st.warning` (line 500). -/

structure RFile where
  id : String
  name : String
  isFolder : Bool
deriving DecidableEq

structure SyncEnv where
  localPresent : String → Bool
  remoteFolders : List (String × List RFile)
  download : String → Except String Unit

structure SyncOut where
  downloaded : List (String × String)
  warnings : List (String × String)
deriving DecidableEq

def SyncOut.append (a b : SyncOut) : SyncOut :=
  { downloaded := a.downloaded ++ b.downloaded, warnings := a.warnings ++ b.warnings }

def emptySync : SyncOut := { downloaded := [], warnings := [] }

def lookupFolder : List (String × List RFile) → String → Option (List RFile)
  | [], _ => none
  | (n, ch) :: t, q => if n = q then some ch else lookupFolder t q

/-- Lines 495-500: one file of a partition — try the download; a failure is caught
and recorded as a warning, never re-raised. -/
def processFile (env : SyncEnv) (ds : String) (f : RFile) : SyncOut :=
  match env.download f.id with
  | .ok _ => { downloaded := [(ds, f.id)], warnings := [] }
  | .error _ => { downloaded := [], warnings := [(ds, f.id)] }

/-- The non-folder children of the remote partition folder for `ds` that the loop
downloads: empty when the partition is already present locally (line 486) or has no
remote folder (lines 488-490). -/
def dateFiles (env : SyncEnv) (ds : String) : List RFile :=
  if env.localPresent ds then []
  else
    match lookupFolder env.remoteFolders ("Date=" ++ ds) with
    | none => []
    | some ch => ch.filter (fun f => f.isFolder = false)

/-- Lines 484-500: one date of the loop. -/
def processDate (env : SyncEnv) (ds : String) : SyncOut :=
  ((dateFiles env ds).map (processFile env ds)).foldr SyncOut.append emptySync

/-- `ensure_local_partitions_for_dates`: iterate `sorted(list(dates_needed))`
(line 484) over the per-date work.  The function is total: no exception escapes. -/
def ensure_local_partitions_for_dates (env : SyncEnv) (dates : List String) : SyncOut :=
  ((List.insertionSort (fun a b : String => a ≤ b) (distinct dates)).map
    (processDate env)).foldr SyncOut.append emptySync

/-- A sync environment with one missing date whose remote folder has three files,
the middle download failing after all retries and fallback. -/
def c7Env : SyncEnv :=
  { localPresent := fun _ => false
    remoteFolders := [("Date=2024-01-01",
      [ { id := "f1", name := "a.parquet", isFolder := false },
        { id := "f2", name := "b.parquet", isFolder := false },
        { id := "f3", name := "c.parquet", isFolder := false } ])]
    download := fun fid => if fid = "f2" then .error "transfer failed" else .ok () }

/-! ## Deletion: `delete_file_or_folder` (lines 459-464) and
`delete_dates_remote_and_local` (lines 513-523)

The remote store is a list of nodes (files and folders with an id, a name and a
parent).  The server deletes a present id and answers 404 for an absent one;
`delete_file_or_folder` treats the 404 as success and re-raises any other status. -/

structure RNode where
  id : String
  name : String
  parentId : String
  isFolder : Bool
deriving DecidableEq

/-- The Drive server's delete: removes a present object, answers HTTP 404 when the
id does not exist. -/
def serverDelete (s : List RNode) (fid : String) : Except Nat (List RNode) :=
  if s.any (fun n => n.id = fid) then .ok (s.filter (fun n => decide (n.id ≠ fid)))
  else .error 404

/-- Lines 459-464: delete, catching `HttpError` and re-raising unless the status
is 404 (an absent object is success). -/
def delete_file_or_folder (s : List RNode) (fid : String) : Except Nat (List RNode) :=
  match serverDelete s fid with
  | .ok s2 => .ok s2
  | .error st => if st = 404 then .ok s else .error st

def list_children_r (s : List RNode) (pid : String) : List RNode :=
  s.filter (fun n => decide (n.parentId = pid))

/-- Line 514: the folder children of the root (`list_children(drive, root_id,
"application/vnd.google-apps.folder")`), keyed by name in the code. -/
def folders_of_root (s : List RNode) (root : String) : List RNode :=
  s.filter (fun n => decide (n.parentId = root ∧ n.isFolder = true))

def deleteChildren (s : List RNode) : List String → Except Nat (List RNode)
  | [] => .ok s
  | fid :: t =>
      match delete_file_or_folder s fid with
      | .ok s2 => deleteChildren s2 t
      | .error e => .error e

/-- Lines 515-523 for one date: if the (pre-listed) folders hold `Date=ds`, delete
all its children then the folder itself; then remove the local partition directory
(best effort). -/
def delete_one_date (snapshot : List RNode) (sl : List RNode × List String) (ds : String) :
    Except Nat (List RNode × List String) :=
  match snapshot.find? (fun n => n.name == "Date=" ++ ds) with
  | some fol => do
      let s2 ← deleteChildren sl.1 ((list_children_r sl.1 fol.id).map (fun n => n.id))
      let s3 ← delete_file_or_folder s2 fol.id
      pure (s3, sl.2.filter (fun x => decide (x ≠ ds)))
  | none => .ok (sl.1, sl.2.filter (fun x => decide (x ≠ ds)))

/-- `delete_dates_remote_and_local`: the remote folder list is snapshotted once
(line 514), then each date is processed; `loc` is the set of local partition dates. -/
def delete_dates_remote_and_local (s : List RNode) (loc : List String) (root : String)
    (ds : List String) : Except Nat (List RNode × List String) :=
  ds.foldlM (delete_one_date (folders_of_root s root)) (s, loc)

/-- A one-partition remote store for the idempotence witness. -/
def c8Store : List RNode :=
  [ { id := "fol1", name := "Date=2024-01-01", parentId := "root", isFolder := true },
    { id := "f1", name := "a.parquet", parentId := "fol1", isFolder := false } ]

/-! ## Local partition cache: `list_local_dates` (lines 474-477) and the sidebar
missing-date computation (lines 738-742)

The local cache directory is a list of top-level entries, each with the files it
contains (an entry with `[]` is an existing but empty directory).  `fileRows` maps
a parquet file to the rows it holds. -/

/-- Model of `n.startswith("Date=")` on the character list. -/
def hasDatePfx (n : String) : Bool := n.data.take 5 = "Date=".data

/-- Model of `n.split("Date=")[-1]` for the entry names the scanner accepts: names
starting with `Date=` whose date suffix does not itself contain `Date=` (always the
case for `Date=YYYY-MM-DD`), where the split's last piece is the suffix after the
5-character marker. -/
def dropDatePfx (n : String) : String := String.mk (n.data.drop 5)

def list_local_dates (fs : List (String × List String)) : List String :=
  ((fs.map Prod.fst).filter hasDatePfx).map dropDatePfx

/-- Line 739: `missing_dates = all_needed_dates - list_local_dates()`. -/
def missing_dates (fs : List (String × List String)) (requested : List String) :
    List String :=
  requested.filter (fun d => decide (¬ d ∈ list_local_dates fs))

/-- Lines 740-742: the set of dates the sidebar hands to
`ensure_local_partitions_for_dates` (exactly the missing dates; the call is skipped
entirely when there are none, which downloads for the same set: none). -/
def sidebar_sync_dates (fs : List (String × List String)) (requested : List String) :
    List String :=
  missing_dates fs requested

/-- The rows a query scan (`read_parquet(base/*/*.parquet)`) draws from one
top-level cache entry: the union of its files' rows. -/
def partitionRows (fileRows : String → List SRow) (entry : String × List String) :
    List SRow :=
  entry.2.flatMap fileRows

/-- A cache directory whose only entry is an existing but empty partition dir. -/
def c10Fs : List (String × List String) := [("Date=2024-01-01", [])]


/-! # Theorems -/

/-! ## C1: invariants of the `parse_and_filter_df` output -/

/-- C1 counterexample.  The claim states that rows whose timestamps failed to parse
are dropped by `parse_and_filter_df`, so that no output row carries an undefined or
negative dial speed.  On the code this is false: for a well-formed input table
containing a row that passes every filter but whose `CallStartdate` does not parse
(`pd.to_datetime(..., errors="coerce")` gives `NaT`), the row is retained in the
output with an undefined (NaN) dial speed — the code computes the speed column and
never drops the NaN rows. -/
theorem c1_counterexample :
    parse_and_filter_df c1Env requiredColumns [c1Row] = .ok [c1Out] ∧
      c1Out.dialSpeed = none :=
  ⟨rfl, rfl⟩

/-- C1 amended: for every pandas behaviour and every input table accepted by the
column check, every output row of `parse_and_filter_df` has `attempt == 1`,
`CallStatus == "Connected"`, a non-empty grouping key, and a dial speed that is
non-negative whenever it is defined (it is an absolute value); rows whose
timestamps failed to parse are retained with an undefined dial speed rather than
dropped. -/
theorem c1_output_invariants (env : PdEnv) (cols : List String) (rows : List RawRow)
    (out : List ParsedRow) (hok : parse_and_filter_df env cols rows = .ok out) :
    ∀ r ∈ out, r.attempt = 1 ∧ r.CallStatus = "Connected" ∧ r.Level1 ≠ "" ∧
      0 ≤ r.dialSpeed.getD 0 := by
  intro r hr
  unfold parse_and_filter_df at hok
  split at hok
  · have hout : out = (pfStep3 env (pfStep2 (pfStep1 rows))).map (pfFinal env) := by
      cases hok
      rfl
    subst hout
    obtain ⟨r0, hr0, rfl⟩ := List.mem_map.mp hr
    obtain ⟨hmem2, hpred⟩ := List.mem_filter.mp hr0
    rw [Bool.and_eq_true, beq_iff_eq, beq_iff_eq] at hpred
    obtain ⟨hatt, hconn⟩ := hpred
    obtain ⟨hmem1, hne⟩ := List.mem_filter.mp hmem2
    have hne2 : r0.Level1 ≠ some "" := of_decide_eq_true hne
    obtain ⟨r1, hr1, hr0eq⟩ := List.mem_map.mp hmem1
    refine ⟨hatt, hconn, ?_, ?_⟩
    · have hsome : r0.Level1 = some (pyStrip (r1.Level1.getD "")) := by
        rw [← hr0eq]
      intro hempty
      apply hne2
      rw [hsome]
      simp only [pfFinal] at hempty
      rw [hsome, Option.getD_some] at hempty
      rw [hempty]
    · cases ha : env.toDatetimeDayfirst r0.CallStartdate with
      | none => simp [pfFinal, ha]
      | some a =>
          cases hb : env.toDatetimeDayfirst r0.Insert_Dt with
          | none => simp [pfFinal, ha, hb]
          | some b => simp [pfFinal, ha, hb, abs_nonneg]
  · simp at hok

/-- C1 witness: the amended theorem applied to a concrete well-behaved row. -/
theorem c1_output_invariants_witness :
    c1GoodOut.attempt = 1 ∧ c1GoodOut.CallStatus = "Connected" ∧ c1GoodOut.Level1 ≠ "" ∧
      0 ≤ c1GoodOut.dialSpeed.getD 0 :=
  c1_output_invariants c1Env requiredColumns [c1GoodRow] [c1GoodOut] rfl c1GoodOut
    (by simp)

/-! ## C2: the grouped summary is the two-step min-then-aggregate computation -/

/-- C2: for every grouped-summary query with a non-empty campaign set and a
non-empty grouping list, `get_summary` computes exactly the claim's two steps —
first the minimum dial speed per (G, Level1) tuple among the rows in the inclusive
date range with a selected campaign, then, per G, the count of those observations,
the mean rounded to the nearest integer, and the rounded continuous (linearly
interpolated) quantile at p/100 for each requested percentile p. -/
theorem c2_summary_two_step (rows : List SRow) (d1 d2 : Nat) (camps : List String)
    (g : List Dim) (pv : List Nat) (hc : camps ≠ []) (hg : g ≠ []) :
    DataMgr.get_summary (duckExec rows) d1 d2 camps g pv =
      specGroupedSummary rows d1 d2 camps g pv := by
  unfold DataMgr.get_summary
  rw [if_neg (not_or.mpr ⟨hc, hg⟩)]
  rfl

/-- C2 witness: the theorem at a concrete dataset (two logs of one call; the faster
one is the observation). -/
theorem c2_summary_two_step_witness :
    (["A"] ≠ ([] : List String)) ∧ ([Dim.CAMPAIGN] ≠ ([] : List Dim)) ∧
      DataMgr.get_summary (duckExec c2Rows) 1 1 ["A"] [Dim.CAMPAIGN] [95] =
        specGroupedSummary c2Rows 1 1 ["A"] [Dim.CAMPAIGN] [95] ∧
      specGroupedSummary c2Rows 1 1 ["A"] [Dim.CAMPAIGN] [95] =
        [{ key := [GVal.s "A"], callCount := 1, avgDS := 7, pcts := [(95, 7)] }] :=
  ⟨by decide, by decide,
   c2_summary_two_step c2Rows 1 1 ["A"] [Dim.CAMPAIGN] [95] (by decide) (by decide),
   by decide⟩

/-! ## C3: cache invalidation on partition changes -/

/-- C3: evaluation of the code at the failing trace.  Import a row for day 1 (upload
succeeds, cache cleared), run the dashboard query at key `c3Key` (result cached),
then delete day 1 from the Manage Data tab.  The deletion changes the locally
visible partition set (`rows` becomes empty), but the Manage Data code path calls no
`compute_all.clear()`, so the next query at the same key returns the stale cached
pre-deletion result instead of recomputing over the changed partition set. -/
theorem c3_stale_cache_after_delete :
    c3AfterDelete.rows = [] ∧ c3AfterQuery.rows = [c3Row] ∧
    (dashboard_query c3AfterDelete c3Key).2 ≠
      DataMgr.get_overall_stats (duckExec c3AfterDelete.rows) 1 1 ["A"] [95] ∧
    (dashboard_query c3AfterDelete c3Key).2 = (dashboard_query c3AfterQuery c3Key).2 :=
  ⟨rfl, rfl, by decide, rfl⟩

/-! ## C4: query operations never propagate exceptions -/

/-- C4: for every duckdb behaviour, a request with no campaigns (or, for the grouped
summary, no grouping dimensions) returns an empty result (grouped/weekly) or the
zero-valued stats record (overall), and a raising query execution degrades to the
same empty/zero results instead of propagating. -/
theorem c4_queries_never_propagate (db : QueryExec) (d1 d2 : Nat) (camps : List String)
    (g : List Dim) (pv : List Nat) :
    ((camps = [] ∨ g = []) → DataMgr.get_summary db d1 d2 camps g pv = []) ∧
    (camps = [] → DataMgr.get_weekly_summary db d1 d2 camps pv = []) ∧
    (camps = [] → DataMgr.get_overall_stats db d1 d2 camps pv = defaultStats pv) ∧
    (∀ e, db.summary d1 d2 camps g pv = .error e →
      DataMgr.get_summary db d1 d2 camps g pv = []) ∧
    (∀ e, db.weekly d1 d2 camps pv = .error e →
      DataMgr.get_weekly_summary db d1 d2 camps pv = []) ∧
    (∀ e, db.overall d1 d2 camps pv = .error e →
      DataMgr.get_overall_stats db d1 d2 camps pv = defaultStats pv) := by
  refine ⟨fun h => ?_, fun h => ?_, fun h => ?_, fun e he => ?_, fun e he => ?_,
    fun e he => ?_⟩
  · unfold DataMgr.get_summary
    rw [if_pos h]
  · unfold DataMgr.get_weekly_summary
    rw [if_pos h]
  · unfold DataMgr.get_overall_stats
    rw [if_pos h]
  · unfold DataMgr.get_summary
    split
    · rfl
    · rw [he]
  · unfold DataMgr.get_weekly_summary
    split
    · rfl
    · rw [he]
  · unfold DataMgr.get_overall_stats
    split
    · rfl
    · rw [he]

/-- C4 witness: a raising executor degrades to empty/zero results, and an empty
campaign selection yields the empty result. -/
theorem c4_queries_never_propagate_witness :
    DataMgr.get_summary c4BadExec 0 0 ["A"] [Dim.Date] [95] = [] ∧
    DataMgr.get_weekly_summary c4BadExec 0 0 ["A"] [95] = [] ∧
    DataMgr.get_overall_stats c4BadExec 0 0 ["A"] [95] = defaultStats [95] ∧
    DataMgr.get_summary c4BadExec 0 0 [] [Dim.Date] [95] = [] :=
  ⟨(c4_queries_never_propagate c4BadExec 0 0 ["A"] [Dim.Date] [95]).2.2.2.1 "boom" rfl,
   (c4_queries_never_propagate c4BadExec 0 0 ["A"] [Dim.Date] [95]).2.2.2.2.1 "boom" rfl,
   (c4_queries_never_propagate c4BadExec 0 0 ["A"] [Dim.Date] [95]).2.2.2.2.2 "boom" rfl,
   (c4_queries_never_propagate c4BadExec 0 0 [] [Dim.Date] [95]).1 (Or.inl rfl)⟩

/-! ## C5: the overall-stats scenario -/

/-- C5 counterexample.  On the scenario dataset (dial speeds [10,20,30] on day 1,
[5] on day 2, [40,50] on day 3 for campaign "A", each record its own grouping key),
the overall stats are NOT (Call Count = 5, Avg = 31, P50 = 20) as the claim states:
the six records give six minimum-speed observations, so Call Count is 6, the
average is 155/6 which rounds to 26, and the interpolated median of
[5,10,20,30,40,50] is 25.  No grouping-key assignment can produce the claimed
numbers: a count of 5 forces the sum of the five observations below 146, while an
average of 31 over 5 observations needs a sum of at least 152.5. -/
theorem c5_counterexample :
    DataMgr.get_overall_stats (duckExec c5Rows) 1 3 ["A"] [50] ≠
      { callCount := 5, avgDS := some 31, pcts := [(50, some 20)] } := by
  decide

/-- C5 amended: on the scenario dataset the overall stats for the inclusive range
and campaign set {"A"} are Call Count = 6, Avg Dial Speed = 26 and P50 = 25. -/
theorem c5_overall_scenario :
    DataMgr.get_overall_stats (duckExec c5Rows) 1 3 ["A"] [50] =
      { callCount := 6, avgDS := some 26, pcts := [(50, some 25)] } := by
  decide

/-! ## C6: the download contract -/

/-- Helper: whatever lands on the final path is prior content, a complete chunked
transfer, or the complete fallback transfer — never partial bytes. -/
theorem dlLoop_final_sources (env : DLEnv) (init : Option String) (maxA : Nat) :
    ∀ fuel attempt sleeps c,
      (dlLoop env init maxA fuel attempt sleeps).finalFile = some c →
      init = some c ∨ env.fallback = Except.ok c ∨
        ∃ a, attempt ≤ a ∧ a < attempt + fuel ∧ env.chunk a = ChunkRes.ok c := by
  intro fuel
  induction fuel with
  | zero =>
      intro attempt sleeps c hc
      exact Or.inl hc
  | succ f ih =>
      intro attempt sleeps c hc
      rw [dlLoop] at hc
      cases h1 : env.chunk attempt with
      | ok c1 =>
          rw [h1] at hc
          refine Or.inr (Or.inr ⟨attempt, le_rfl, by omega, ?_⟩)
          cases hc
          exact h1
      | fail e p =>
          rw [h1] at hc
          dsimp only at hc
          by_cases hm : (attempt == maxA) = true
          · rw [if_pos hm] at hc
            cases hf : env.fallback with
            | ok cf =>
                rw [hf] at hc
                cases hc
                exact Or.inr (Or.inl rfl)
            | error fe =>
                rw [hf] at hc
                exact Or.inl hc
          · rw [if_neg hm] at hc
            rcases ih (attempt + 1) (sleeps ++ [backoff attempt]) c hc with h | h | ⟨a, h1, h2, h3⟩
            · exact Or.inl h
            · exact Or.inr (Or.inl h)
            · exact Or.inr (Or.inr ⟨a, by omega, by omega, h3⟩)

/-- Helper: if attempts before `a` fail and attempt `a` succeeds (within budget),
the loop returns that content with one backoff sleep per failed attempt. -/
theorem dlLoop_ok_at (env : DLEnv) (init : Option String) (maxA : Nat) :
    ∀ fuel attempt sleeps a c,
      attempt ≤ a → a < attempt + fuel → a ≤ maxA →
      (∀ b, attempt ≤ b → b < a → ∃ e p, env.chunk b = ChunkRes.fail e p) →
      env.chunk a = ChunkRes.ok c →
      dlLoop env init maxA fuel attempt sleeps =
        { ok := true, err := none, finalFile := some c, tmpFile := none,
          sleeps := sleeps ++ (List.range' attempt (a - attempt)).map backoff,
          usedFallback := false } := by
  intro fuel
  induction fuel with
  | zero =>
      intro attempt sleeps a c h1 h2
      omega
  | succ f ih =>
      intro attempt sleeps a c h1 h2 h3 hpred hok
      by_cases heq : attempt = a
      · subst heq
        rw [dlLoop, hok]
        simp
      · obtain ⟨e, p, hb⟩ := hpred attempt le_rfl (by omega)
        have hne : ¬((attempt == maxA) = true) := by
          simp only [beq_iff_eq]
          omega
        rw [dlLoop, hb]
        refine Eq.trans (if_neg hne) ?_
        rw [ih (attempt + 1) (sleeps ++ [backoff attempt]) a c (by omega) (by omega) h3
          (fun b hb1 hb2 => hpred b (by omega) hb2) hok]
        rw [show a - attempt = (a - (attempt + 1)) + 1 by omega, List.range'_succ]
        simp

/-- Helper: if every attempt from the current one through `maxA` fails, the loop
sleeps after each failed attempt but the last, then resolves on the fallback,
re-raising the last chunked error when the fallback also fails. -/
theorem dlLoop_exhaust (env : DLEnv) (init : Option String) (maxA : Nat) :
    ∀ fuel attempt sleeps e p,
      attempt + fuel = maxA + 1 → 1 ≤ fuel →
      (∀ b, attempt ≤ b → b < maxA → ∃ e2 p2, env.chunk b = ChunkRes.fail e2 p2) →
      env.chunk maxA = ChunkRes.fail e p →
      dlLoop env init maxA fuel attempt sleeps =
        (match env.fallback with
         | .ok c =>
             { ok := true, err := none, finalFile := some c, tmpFile := none,
               sleeps := sleeps ++ (List.range' attempt (maxA - attempt)).map backoff,
               usedFallback := true }
         | .error _ =>
             { ok := false, err := some e, finalFile := init, tmpFile := none,
               sleeps := sleeps ++ (List.range' attempt (maxA - attempt)).map backoff,
               usedFallback := true }) := by
  intro fuel
  induction fuel with
  | zero =>
      intro attempt sleeps e p hsum hfuel
      omega
  | succ f ih =>
      intro attempt sleeps e p hsum hfuel hpred hlast
      by_cases hend : attempt = maxA
      · subst hend
        rw [dlLoop, hlast]
        refine Eq.trans (if_pos (by simp)) ?_
        cases env.fallback with
        | ok c => simp
        | error fe => simp
      · have hlt : attempt < maxA := by omega
        obtain ⟨e2, p2, hb⟩ := hpred attempt le_rfl hlt
        have hne : ¬((attempt == maxA) = true) := by
          simp only [beq_iff_eq]
          omega
        rw [dlLoop, hb]
        refine Eq.trans (if_neg hne) ?_
        rw [ih (attempt + 1) (sleeps ++ [backoff attempt]) e p (by omega) (by omega)
          (fun b hb1 hb2 => hpred b (by omega) hb2) hlast]
        rw [show maxA - attempt = (maxA - (attempt + 1)) + 1 by omega, List.range'_succ]
        cases env.fallback with
        | ok c => simp
        | error fe => simp

/-- C6: the `download_file` contract.  (i) The final path only ever receives its
prior content, a complete chunked transfer, or the complete fallback transfer —
never a partial file (partial bytes only ever reach the `.part` sibling).  (ii) If
the chunked transfer first succeeds on attempt `a ≤ 4`, the call succeeds with that
content after sleeping `min(2^b, 10)` seconds after each failed attempt `b < a`.
(iii) If all 4 chunked attempts fail, the whole-object fallback runs exactly once,
after sleeps [2,4,8]; its success installs its content.  (iv) If the fallback also
fails, the temporary file is removed and the error of the last chunked attempt is
raised, leaving the final path untouched. -/
theorem c6_download_contract (env : DLEnv) (init : Option String) :
    (∀ c, (download_file env init).finalFile = some c →
        init = some c ∨ env.fallback = Except.ok c ∨
          ∃ a, 1 ≤ a ∧ a ≤ 4 ∧ env.chunk a = ChunkRes.ok c) ∧
    (∀ a c, 1 ≤ a → a ≤ 4 → chunkFailsThrough env (a - 1) →
        env.chunk a = ChunkRes.ok c →
        download_file env init =
          { ok := true, err := none, finalFile := some c, tmpFile := none,
            sleeps := (List.range' 1 (a - 1)).map backoff, usedFallback := false }) ∧
    (∀ c, chunkFailsThrough env 4 → env.fallback = Except.ok c →
        download_file env init =
          { ok := true, err := none, finalFile := some c, tmpFile := none,
            sleeps := [2, 4, 8], usedFallback := true }) ∧
    (∀ e p f, chunkFailsThrough env 3 → env.chunk 4 = ChunkRes.fail e p →
        env.fallback = Except.error f →
        download_file env init =
          { ok := false, err := some e, finalFile := init, tmpFile := none,
            sleeps := [2, 4, 8], usedFallback := true }) := by
  refine ⟨?_, ?_, ?_, ?_⟩
  · intro c hc
    rcases dlLoop_final_sources env init 4 4 1 [] c hc with h | h | ⟨a, h1, h2, h3⟩
    · exact Or.inl h
    · exact Or.inr (Or.inl h)
    · exact Or.inr (Or.inr ⟨a, h1, by omega, h3⟩)
  · intro a c h1 h4 hfails hok
    have := dlLoop_ok_at env init 4 4 1 [] a c h1 (by omega) h4
      (fun b hb1 hb2 => hfails b hb1 (by omega)) hok
    rw [download_file, this]
    simp
  · intro c hfails hfb
    obtain ⟨e, p, hlast⟩ := hfails 4 (by omega) le_rfl
    have := dlLoop_exhaust env init 4 4 1 [] e p rfl (by omega)
      (fun b hb1 hb2 => hfails b hb1 (by omega)) hlast
    rw [download_file, this, hfb]
    rfl
  · intro e p f hfails hlast hfb
    have := dlLoop_exhaust env init 4 4 1 [] e p rfl (by omega)
      (fun b hb1 hb2 => hfails b hb1 (by omega)) hlast
    rw [download_file, this, hfb]
    rfl

/-- C6 witness: on a network where every transfer fails, the call raises the last
chunked error after sleeping [2,4,8], leaves the final path untouched and removes
the temporary file; and the conjuncts applied to that concrete environment. -/
theorem c6_download_contract_witness :
    download_file c6Env none =
      { ok := false, err := some "chunk error 4", finalFile := none, tmpFile := none,
        sleeps := [2, 4, 8], usedFallback := true } :=
  (c6_download_contract c6Env none).2.2.2 "chunk error 4" "partbytes" "fallback error"
    (fun a _ _ => ⟨"chunk error " ++ toString a, "partbytes", rfl⟩) rfl rfl

/-! ## C7: `ensure_local_partitions_for_dates` never aborts the batch -/

/-- Helper: membership in first-occurrence deduplication. -/
theorem mem_distinctAux {α : Type} [DecidableEq α] (l : List α) :
    ∀ (seen : List α) (a : α), a ∈ distinctAux seen l ↔ a ∈ l ∧ ¬ a ∈ seen := by
  induction l with
  | nil =>
      intro seen a
      simp [distinctAux]
  | cons x t ih =>
      intro seen a
      by_cases hx : x ∈ seen
      · rw [distinctAux, if_pos hx, ih]
        constructor
        · rintro ⟨h1, h2⟩
          exact ⟨List.mem_cons_of_mem _ h1, h2⟩
        · rintro ⟨h1, h2⟩
          rcases List.mem_cons.mp h1 with rfl | h1
          · exact absurd hx h2
          · exact ⟨h1, h2⟩
      · rw [distinctAux, if_neg hx]
        constructor
        · intro h
          rcases List.mem_cons.mp h with rfl | h
          · exact ⟨List.mem_cons_self _ _, hx⟩
          · obtain ⟨h1, h2⟩ := (ih (x :: seen) a).mp h
            rw [List.mem_cons, not_or] at h2
            exact ⟨List.mem_cons_of_mem _ h1, h2.2⟩
        · rintro ⟨h1, h2⟩
          rcases List.mem_cons.mp h1 with rfl | h1
          · exact List.mem_cons_self _ _
          · by_cases hax : a = x
            · subst hax
              exact List.mem_cons_self _ _
            · refine List.mem_cons_of_mem _ ((ih (x :: seen) a).mpr ⟨h1, ?_⟩)
              rw [List.mem_cons, not_or]
              exact ⟨hax, h2⟩

theorem mem_distinct {α : Type} [DecidableEq α] (l : List α) (a : α) :
    a ∈ distinct l ↔ a ∈ l := by
  rw [distinct, mem_distinctAux]
  simp

/-- Helper: the downloads accumulated by the fold are those of the parts. -/
theorem foldr_append_downloaded (l : List SyncOut) :
    (l.foldr SyncOut.append emptySync).downloaded = l.flatMap SyncOut.downloaded := by
  induction l with
  | nil => rfl
  | cons x t ih => simp [List.foldr_cons, SyncOut.append, ih]

theorem foldr_append_warnings (l : List SyncOut) :
    (l.foldr SyncOut.append emptySync).warnings = l.flatMap SyncOut.warnings := by
  induction l with
  | nil => rfl
  | cons x t ih => simp [List.foldr_cons, SyncOut.append, ih]

theorem processFile_downloaded_mem (env : SyncEnv) (ds : String) (f : RFile)
    (d x : String) :
    (d, x) ∈ (processFile env ds f).downloaded ↔
      d = ds ∧ x = f.id ∧ env.download f.id = .ok () := by
  unfold processFile
  cases h : env.download f.id with
  | ok u =>
      cases u
      simp [h, Prod.ext_iff]
  | error e => simp [h]

theorem processFile_warnings_mem (env : SyncEnv) (ds : String) (f : RFile)
    (d x : String) :
    (d, x) ∈ (processFile env ds f).warnings ↔
      d = ds ∧ x = f.id ∧ ∃ e, env.download f.id = .error e := by
  unfold processFile
  cases h : env.download f.id with
  | ok u =>
      cases u
      simp [h]
  | error e => simp [h, Prod.ext_iff]

theorem processDate_downloaded_mem (env : SyncEnv) (ds d x : String) :
    (d, x) ∈ (processDate env ds).downloaded ↔
      d = ds ∧ ∃ f ∈ dateFiles env ds, x = f.id ∧ env.download f.id = .ok () := by
  unfold processDate
  rw [foldr_append_downloaded]
  simp only [List.mem_flatMap, List.mem_map]
  constructor
  · rintro ⟨o, ⟨f, hf, rfl⟩, hmem⟩
    obtain ⟨rfl, hx, hok⟩ := (processFile_downloaded_mem env ds f d x).mp hmem
    exact ⟨rfl, f, hf, hx, hok⟩
  · rintro ⟨rfl, f, hf, hx, hok⟩
    exact ⟨processFile env d f, ⟨f, hf, rfl⟩,
      (processFile_downloaded_mem env d f d x).mpr ⟨rfl, hx, hok⟩⟩

theorem processDate_warnings_mem (env : SyncEnv) (ds d x : String) :
    (d, x) ∈ (processDate env ds).warnings ↔
      d = ds ∧ ∃ f ∈ dateFiles env ds, x = f.id ∧ ∃ e, env.download f.id = .error e := by
  unfold processDate
  rw [foldr_append_warnings]
  simp only [List.mem_flatMap, List.mem_map]
  constructor
  · rintro ⟨o, ⟨f, hf, rfl⟩, hmem⟩
    obtain ⟨rfl, hx, he⟩ := (processFile_warnings_mem env ds f d x).mp hmem
    exact ⟨rfl, f, hf, hx, he⟩
  · rintro ⟨rfl, f, hf, hx, he⟩
    exact ⟨processFile env d f, ⟨f, hf, rfl⟩,
      (processFile_warnings_mem env d f d x).mpr ⟨rfl, hx, he⟩⟩

/-- C7: `ensure_local_partitions_for_dates` is total (no exception escapes, by its
type), and its effects are exactly per-file: a file of a requested date that is
missing locally and present remotely is downloaded iff its own transfer succeeds,
and produces a non-fatal warning iff its own transfer fails — independent of every
other file's outcome, so one file's failure never aborts the remaining files or
dates.  Dates that are locally present or have no remote folder contribute no
downloads and no warnings (`dateFiles` is empty for them): they are skipped, not
errors. -/
theorem c7_ensure_never_aborts (env : SyncEnv) (dates : List String) (d x : String) :
    ((d, x) ∈ (ensure_local_partitions_for_dates env dates).downloaded ↔
      d ∈ dates ∧ ∃ f ∈ dateFiles env d, x = f.id ∧ env.download f.id = .ok ()) ∧
    ((d, x) ∈ (ensure_local_partitions_for_dates env dates).warnings ↔
      d ∈ dates ∧ ∃ f ∈ dateFiles env d, x = f.id ∧ ∃ e, env.download f.id = .error e) := by
  have hsort : ∀ ds : String,
      ds ∈ List.insertionSort (fun a b : String => a ≤ b) (distinct dates) ↔ ds ∈ dates := by
    intro ds
    rw [(List.perm_insertionSort _ _).mem_iff, mem_distinct]
  constructor
  · rw [ensure_local_partitions_for_dates, foldr_append_downloaded]
    simp only [List.mem_flatMap, List.mem_map]
    constructor
    · rintro ⟨o, ⟨ds, hds, rfl⟩, hmem⟩
      obtain ⟨rfl, hrest⟩ := (processDate_downloaded_mem env ds d x).mp hmem
      exact ⟨(hsort d).mp hds, hrest⟩
    · rintro ⟨hd, hrest⟩
      exact ⟨processDate env d, ⟨d, (hsort d).mpr hd, rfl⟩,
        (processDate_downloaded_mem env d d x).mpr ⟨rfl, hrest⟩⟩
  · rw [ensure_local_partitions_for_dates, foldr_append_warnings]
    simp only [List.mem_flatMap, List.mem_map]
    constructor
    · rintro ⟨o, ⟨ds, hds, rfl⟩, hmem⟩
      obtain ⟨rfl, hrest⟩ := (processDate_warnings_mem env ds d x).mp hmem
      exact ⟨(hsort d).mp hds, hrest⟩
    · rintro ⟨hd, hrest⟩
      exact ⟨processDate env d, ⟨d, (hsort d).mpr hd, rfl⟩,
        (processDate_warnings_mem env d d x).mpr ⟨rfl, hrest⟩⟩

/-- C7 witness: in a partition of three files whose middle download fails after all
retries and fallback, the other two files are still downloaded and the failure is
recorded as a warning. -/
theorem c7_ensure_never_aborts_witness :
    ("2024-01-01", "f1") ∈ (ensure_local_partitions_for_dates c7Env ["2024-01-01"]).downloaded ∧
    ("2024-01-01", "f2") ∈ (ensure_local_partitions_for_dates c7Env ["2024-01-01"]).warnings ∧
    ("2024-01-01", "f3") ∈ (ensure_local_partitions_for_dates c7Env ["2024-01-01"]).downloaded :=
  ⟨(c7_ensure_never_aborts c7Env ["2024-01-01"] "2024-01-01" "f1").1.mpr
      ⟨by decide, { id := "f1", name := "a.parquet", isFolder := false }, by decide, rfl, rfl⟩,
   (c7_ensure_never_aborts c7Env ["2024-01-01"] "2024-01-01" "f2").2.mpr
      ⟨by decide, { id := "f2", name := "b.parquet", isFolder := false }, by decide, rfl,
        "transfer failed", rfl⟩,
   (c7_ensure_never_aborts c7Env ["2024-01-01"] "2024-01-01" "f3").1.mpr
      ⟨by decide, { id := "f3", name := "c.parquet", isFolder := false }, by decide, rfl, rfl⟩⟩

/-! ## C8: remote delete is idempotent -/

/-- Helper: in this model `delete_file_or_folder` always succeeds (the server 404
on an absent id is caught), shrinks the store, and removes every node with the
deleted id. -/
theorem delete_file_or_folder_spec (s : List RNode) (fid : String) :
    ∃ s2, delete_file_or_folder s fid = .ok s2 ∧ (∀ x ∈ s2, x ∈ s) ∧
      ∀ x ∈ s2, x.id ≠ fid := by
  unfold delete_file_or_folder serverDelete
  by_cases h : s.any (fun n => decide (n.id = fid)) = true
  · rw [if_pos h]
    refine ⟨_, rfl, ?_, ?_⟩
    · intro x hx
      exact (List.mem_filter.mp hx).1
    · intro x hx
      exact of_decide_eq_true (List.mem_filter.mp hx).2
  · rw [if_neg h]
    refine ⟨s, by norm_num, fun x hx => hx, ?_⟩
    intro x hx hxid
    exact h (List.any_eq_true.mpr ⟨x, hx, by simp [hxid]⟩)

/-- Helper: deleting a list of children always succeeds and shrinks the store. -/
theorem deleteChildren_spec (l : List String) :
    ∀ s : List RNode, ∃ s2, deleteChildren s l = .ok s2 ∧ ∀ x ∈ s2, x ∈ s := by
  induction l with
  | nil =>
      intro s
      exact ⟨s, rfl, fun x hx => hx⟩
  | cons fid t ih =>
      intro s
      obtain ⟨s2, h2, hsub2, _⟩ := delete_file_or_folder_spec s fid
      obtain ⟨s3, h3, hsub3⟩ := ih s2
      refine ⟨s3, ?_, fun x hx => hsub2 x (hsub3 x hx)⟩
      rw [deleteChildren, h2]
      exact h3

/-- C8: remote delete is idempotent.  (i) Deleting an id that is absent from the
store succeeds (the server's 404 is treated as success, not an error).  (ii) When
at most one `Date=d` folder sits under the root (the layout `ensure_partition_folder`
maintains), a second `deleteDates({d})` after a successful first call succeeds and
is a no-op: the folder is gone from the listing, so no remote delete is issued. -/
theorem c8_delete_idempotent :
    (∀ (s : List RNode) (fid : String), s.any (fun n => decide (n.id = fid)) = false →
        delete_file_or_folder s fid = .ok s) ∧
    (∀ (s : List RNode) (loc : List String) (root d : String) (s1 : List RNode)
        (loc1 : List String),
        (∀ m1 ∈ s, ∀ m2 ∈ s,
          m1.parentId = root ∧ m1.isFolder = true ∧ m1.name = "Date=" ++ d →
          m2.parentId = root ∧ m2.isFolder = true ∧ m2.name = "Date=" ++ d →
          m1.id = m2.id) →
        delete_dates_remote_and_local s loc root [d] = .ok (s1, loc1) →
        delete_dates_remote_and_local s1 loc1 root [d] = .ok (s1, loc1)) := by
  constructor
  · intro s fid h
    unfold delete_file_or_folder serverDelete
    rw [h]
    norm_num
  · intro s loc root d s1 loc1 huniq hrun
    have hfold : ∀ (s0 : List RNode) (loc0 : List String) (snap : List RNode),
        delete_dates_remote_and_local s0 loc0 root [d] =
          delete_one_date (folders_of_root s0 root) (s0, loc0) d >>= pure := by
      intro s0 loc0 snap
      rfl
    rw [hfold s loc (folders_of_root s root)] at hrun
    cases hf : (folders_of_root s root).find? (fun n => n.name == "Date=" ++ d) with
    | none =>
        rw [delete_one_date, hf] at hrun
        have hinj : s1 = s ∧ loc1 = loc.filter (fun x => decide (x ≠ d)) := by
          have : (Except.ok (s, loc.filter (fun x => decide (x ≠ d))) :
              Except Nat (List RNode × List String)) = .ok (s1, loc1) := hrun
          cases this
          exact ⟨rfl, rfl⟩
        obtain ⟨rfl, rfl⟩ := hinj
        rw [hfold s1 (loc.filter (fun x => decide (x ≠ d))) (folders_of_root s1 root),
          delete_one_date, hf]
        have hid : (loc.filter (fun x => decide (x ≠ d))).filter (fun x => decide (x ≠ d)) =
            loc.filter (fun x => decide (x ≠ d)) := by
          apply List.filter_eq_self.mpr
          intro a ha
          exact (List.mem_filter.mp ha).2
        rw [hid]
        rfl
    | some fol =>
        have hfolmem : fol ∈ s ∧ fol.parentId = root ∧ fol.isFolder = true := by
          have hm := List.mem_of_find?_eq_some hf
          obtain ⟨hms, hpred⟩ := List.mem_filter.mp hm
          obtain ⟨hp, hfo⟩ := of_decide_eq_true hpred
          exact ⟨hms, hp, hfo⟩
        have hfolname : fol.name = "Date=" ++ d := by
          have := List.find?_some hf
          exact eq_of_beq this
        obtain ⟨s2, h2, hsub2⟩ :=
          deleteChildren_spec ((list_children_r s fol.id).map (fun n => n.id)) s
        obtain ⟨s3, h3, hsub3, hid3⟩ := delete_file_or_folder_spec s2 fol.id
        rw [delete_one_date, hf] at hrun
        have hrun2 : (Except.ok (s3, loc.filter (fun x => decide (x ≠ d))) :
            Except Nat (List RNode × List String)) = .ok (s1, loc1) := by
          rw [← hrun]
          show _ = (deleteChildren s ((list_children_r s fol.id).map (fun n => n.id)) >>=
            fun s2 => delete_file_or_folder s2 fol.id >>=
              fun s3 => pure (s3, loc.filter (fun x => decide (x ≠ d)))) >>= pure
          rw [h2]
          show _ = (delete_file_or_folder s2 fol.id >>=
            fun s3 => pure (s3, loc.filter (fun x => decide (x ≠ d)))) >>= pure
          rw [h3]
          rfl
        have hinj : s1 = s3 ∧ loc1 = loc.filter (fun x => decide (x ≠ d)) := by
          cases hrun2
          exact ⟨rfl, rfl⟩
        obtain ⟨rfl, rfl⟩ := hinj
        rw [hfold s1 (loc.filter (fun x => decide (x ≠ d))) (folders_of_root s1 root)]
        cases hf2 : (folders_of_root s1 root).find? (fun n => n.name == "Date=" ++ d) with
        | some x =>
            exfalso
            have hxmem : x ∈ s1 ∧ x.parentId = root ∧ x.isFolder = true := by
              have hm := List.mem_of_find?_eq_some hf2
              obtain ⟨hms, hpred⟩ := List.mem_filter.mp hm
              obtain ⟨hp, hfo⟩ := of_decide_eq_true hpred
              exact ⟨hms, hp, hfo⟩
            have hxname : x.name = "Date=" ++ d := by
              have := List.find?_some hf2
              exact eq_of_beq this
            have hxs : x ∈ s := hsub2 x (hsub3 x hxmem.1)
            have : x.id = fol.id :=
              huniq x hxs fol hfolmem.1 ⟨hxmem.2.1, hxmem.2.2, hxname⟩
                ⟨hfolmem.2.1, hfolmem.2.2, hfolname⟩
            exact hid3 x hxmem.1 this
        | none =>
            rw [delete_one_date, hf2]
            have hid : (loc.filter (fun x => decide (x ≠ d))).filter
                (fun x => decide (x ≠ d)) = loc.filter (fun x => decide (x ≠ d)) := by
              apply List.filter_eq_self.mpr
              intro a ha
              exact (List.mem_filter.mp ha).2
            rw [hid]
            rfl

/-- C8 witness: deleting from an empty store succeeds, and a second
`deleteDates({2024-01-01})` after the first emptied the one-partition store is a
no-op success. -/
theorem c8_delete_idempotent_witness :
    delete_file_or_folder ([] : List RNode) "x" = .ok [] ∧
    delete_dates_remote_and_local ([] : List RNode) ([] : List String) "root"
      ["2024-01-01"] = .ok ([], []) :=
  ⟨c8_delete_idempotent.1 [] "x" rfl,
   c8_delete_idempotent.2 c8Store ["2024-01-01"] "root" "2024-01-01" [] []
     (by decide) (by decide)⟩

/-! ## C10: an existing-but-empty partition directory is never re-downloaded -/

/-- C10: if a top-level cache entry named `Date=d` exists on disk — even as an
empty directory containing no files — then `list_local_dates` contains `d`, the
sidebar's missing-set excludes `d`, the set handed to
`ensure_local_partitions_for_dates` excludes `d` (so no download is ever attempted
for it), and such an empty partition contributes no rows to query scans. -/
theorem c10_empty_partition_not_redownloaded (fs : List (String × List String))
    (requested : List String) (d : String) (files : List String)
    (fileRows : String → List SRow)
    (hmem : ("Date=" ++ d, files) ∈ fs) :
    d ∈ list_local_dates fs ∧
    ¬ d ∈ missing_dates fs requested ∧
    ¬ d ∈ sidebar_sync_dates fs requested ∧
    (files = [] → partitionRows fileRows ("Date=" ++ d, files) = []) := by
  have hname : ("Date=" ++ d) ∈ fs.map Prod.fst := List.mem_map.mpr ⟨_, hmem, rfl⟩
  have hdata : ("Date=" ++ d).data = "Date=".data ++ d.data := rfl
  have hpfx : hasDatePfx ("Date=" ++ d) = true := by
    apply decide_eq_true
    rw [hdata, show (5 : Nat) = ("Date=".data).length from rfl, List.take_left]
  have hdrop : dropDatePfx ("Date=" ++ d) = d := by
    unfold dropDatePfx
    rw [hdata, show (5 : Nat) = ("Date=".data).length from rfl, List.drop_left]
  have hin : d ∈ list_local_dates fs := by
    unfold list_local_dates
    exact List.mem_map.mpr ⟨"Date=" ++ d, List.mem_filter.mpr ⟨hname, hpfx⟩, hdrop⟩
  have hmiss : ¬ d ∈ missing_dates fs requested := by
    intro hcontra
    exact of_decide_eq_true (List.mem_filter.mp hcontra).2 hin
  refine ⟨hin, hmiss, hmiss, ?_⟩
  intro hfiles
  rw [partitionRows, hfiles]
  rfl

/-- C10 witness: a cache holding only the empty directory `Date=2024-01-01`. -/
theorem c10_empty_partition_not_redownloaded_witness :
    "2024-01-01" ∈ list_local_dates c10Fs ∧
    ¬ "2024-01-01" ∈ missing_dates c10Fs ["2024-01-01", "2024-01-02"] ∧
    ¬ "2024-01-01" ∈ sidebar_sync_dates c10Fs ["2024-01-01", "2024-01-02"] ∧
    (([] : List String) = [] →
      partitionRows (fun _ => []) ("Date=" ++ "2024-01-01", []) = []) :=
  c10_empty_partition_not_redownloaded c10Fs ["2024-01-01", "2024-01-02"] "2024-01-01"
    [] (fun _ => []) (by decide)

/-! ## C9: quantile monotonicity

Bridge from the kernel-computable fractions to rational arithmetic. -/

theorem Frac.val_ofInt (n : Int) : (Frac.ofInt n).val = (n : Rat) := by
  unfold Frac.ofInt Frac.val
  norm_num

theorem Frac.val_half : Frac.half.val = 1 / 2 := by
  unfold Frac.half Frac.val
  norm_num

theorem Frac.pos_ofInt (n : Int) : (Frac.ofInt n).pos := by
  unfold Frac.ofInt Frac.pos
  norm_num

theorem Frac.pos_half : Frac.half.pos := by
  unfold Frac.half Frac.pos
  norm_num

theorem Frac.pos_add {a b : Frac} (ha : a.pos) (hb : b.pos) : (a.add b).pos :=
  mul_pos ha hb

theorem Frac.pos_sub {a b : Frac} (ha : a.pos) (hb : b.pos) : (a.sub b).pos :=
  mul_pos ha hb

theorem Frac.pos_mul {a b : Frac} (ha : a.pos) (hb : b.pos) : (a.mul b).pos :=
  mul_pos ha hb

theorem Frac.pos_neg {a : Frac} (ha : a.pos) : a.neg.pos := ha

theorem Frac.den_ne {a : Frac} (ha : a.pos) : ((a.den : Rat)) ≠ 0 := by
  have : (0 : Int) < a.den := ha
  exact_mod_cast ne_of_gt (by exact_mod_cast this : (0 : Rat) < (a.den : Rat))

theorem Frac.val_add {a b : Frac} (ha : a.pos) (hb : b.pos) :
    (a.add b).val = a.val + b.val := by
  unfold Frac.add Frac.val
  have h1 := Frac.den_ne ha
  have h2 := Frac.den_ne hb
  field_simp

theorem Frac.val_sub {a b : Frac} (ha : a.pos) (hb : b.pos) :
    (a.sub b).val = a.val - b.val := by
  unfold Frac.sub Frac.val
  have h1 := Frac.den_ne ha
  have h2 := Frac.den_ne hb
  field_simp
  ring

theorem Frac.val_mul (a b : Frac) : (a.mul b).val = a.val * b.val := by
  unfold Frac.mul Frac.val
  push_cast
  rw [div_mul_div_comm]

theorem Frac.val_neg (a : Frac) : a.neg.val = -a.val := by
  unfold Frac.neg Frac.val
  push_cast
  rw [neg_div]

theorem Frac.lt_iff {a b : Frac} (ha : a.pos) (hb : b.pos) :
    (a.lt b = true) ↔ a.val < b.val := by
  unfold Frac.lt Frac.val
  rw [decide_eq_true_eq]
  have h1 : (0 : Rat) < (a.den : Rat) := by exact_mod_cast ha
  have h2 : (0 : Rat) < (b.den : Rat) := by exact_mod_cast hb
  rw [div_lt_div_iff₀ h1 h2]
  constructor
  · intro h
    exact_mod_cast h
  · intro h
    exact_mod_cast h

theorem Frac.floor_val {a : Frac} (ha : a.pos) : a.floor = ⌊a.val⌋ := by
  unfold Frac.floor Frac.val
  obtain ⟨dn, hdn⟩ : ∃ dn : Nat, a.den = (dn : Int) :=
    ⟨a.den.toNat, (Int.toNat_of_nonneg ha.le).symm⟩
  rw [hdn, show (((dn : Int) : Rat)) = ((dn : Nat) : Rat) by push_cast; ring,
    Rat.floor_intCast_div_natCast]

theorem Frac.pctFrac_pos (p : Nat) : (pctFrac p).pos := by
  unfold pctFrac Frac.pos
  norm_num

theorem Frac.pctFrac_val (p : Nat) : (pctFrac p).val = (p : Rat) / 100 := by
  unfold pctFrac Frac.val
  push_cast
  ring

/-- Proof-side reading of `duckRound`: rounding of the rational value. -/
theorem duckRound_eq_rround (x : Frac) (hx : x.pos) : duckRound x = rround x.val := by
  unfold duckRound rround
  by_cases hlt : x.lt (Frac.ofInt 0) = true
  · rw [if_pos hlt]
    have hv : x.val < 0 := by
      have := (Frac.lt_iff hx (Frac.pos_ofInt 0)).mp hlt
      rwa [Frac.val_ofInt, Int.cast_zero] at this
    rw [if_pos hv, Frac.floor_val (Frac.pos_add (Frac.pos_neg hx) Frac.pos_half),
      Frac.val_add (Frac.pos_neg hx) Frac.pos_half, Frac.val_neg, Frac.val_half]
  · rw [if_neg hlt]
    have hv : ¬ x.val < 0 := by
      intro hcon
      exact hlt ((Frac.lt_iff hx (Frac.pos_ofInt 0)).mpr
        (by rwa [Frac.val_ofInt, Int.cast_zero]))
    rw [if_neg hv, Frac.floor_val (Frac.pos_add hx Frac.pos_half),
      Frac.val_add hx Frac.pos_half, Frac.val_half]

theorem quantileCont_pos (l : List Int) (q : Frac) (hq : q.pos) :
    (quantileCont l q).pos := by
  unfold quantileCont
  exact Frac.pos_add (Frac.pos_ofInt _)
    (Frac.pos_mul
      (Frac.pos_sub (Frac.pos_mul (Frac.pos_ofInt _) hq) (Frac.pos_ofInt _))
      (Frac.pos_sub (Frac.pos_ofInt _) (Frac.pos_ofInt _)))

/-- Proof-side reading of `quantileCont`: the rational interpolation on the sorted
list at position `(n - 1) * q`. -/
theorem quantileCont_val (l : List Int) (q : Frac) (hq : q.pos) :
    (quantileCont l q).val =
      qinterp (List.insertionSort (fun a b : Int => a ≤ b) l)
        ((((l.length : Int) - 1 : Int) : Rat) * q.val) := by
  unfold quantileCont qinterp
  have hhpos : ((Frac.ofInt ((l.length : Int) - 1)).mul q).pos :=
    Frac.pos_mul (Frac.pos_ofInt _) hq
  have hhval : ((Frac.ofInt ((l.length : Int) - 1)).mul q).val =
      (((l.length : Int) - 1 : Int) : Rat) * q.val := by
    rw [Frac.val_mul, Frac.val_ofInt]
  rw [Frac.val_add (Frac.pos_ofInt _)
      (Frac.pos_mul (Frac.pos_sub hhpos (Frac.pos_ofInt _))
        (Frac.pos_sub (Frac.pos_ofInt _) (Frac.pos_ofInt _))),
    Frac.val_mul,
    Frac.val_sub hhpos (Frac.pos_ofInt _),
    Frac.val_sub (Frac.pos_ofInt _) (Frac.pos_ofInt _),
    Frac.val_ofInt, Frac.val_ofInt, Frac.val_ofInt,
    Frac.floor_val hhpos, hhval]

/-- Helper: a sorted list is monotone in its (defaulted) positions below the length. -/
theorem sorted_getD_le (s : List Int) (hs : List.Sorted (fun a b : Int => a ≤ b) s) :
    ∀ i j : Nat, i ≤ j → j < s.length → s.getD i 0 ≤ s.getD j 0 := by
  induction s with
  | nil =>
      intro i j hij hj
      simp at hj
  | cons x t ih =>
      intro i j hij hj
      obtain ⟨hx, ht⟩ := List.sorted_cons.mp hs
      cases i with
      | zero =>
          cases j with
          | zero => exact le_refl _
          | succ j2 =>
              have hj2 : j2 < t.length := by simpa using hj
              have hmem : t.getD j2 0 ∈ t := by
                rw [List.getD_eq_getElem?_getD, List.getElem?_eq_getElem hj2,
                  Option.getD_some]
                exact List.getElem_mem hj2
              simpa using hx _ hmem
      | succ i2 =>
          cases j with
          | zero => omega
          | succ j2 =>
              have := ih ht i2 j2 (by omega) (by simpa using hj)
              simpa using this

/-- Helper: the continuous interpolation at a position in a sorted list is monotone
in the position (within the valid range `[0, n-1]`). -/
theorem qinterp_mono (s : List Int)
    (hs : ∀ i j : Nat, i ≤ j → j < s.length → s.getD i 0 ≤ s.getD j 0)
    (h1 h2 : Rat) (h10 : 0 ≤ h1) (h12 : h1 ≤ h2)
    (h2n : h2 ≤ (s.length : Rat) - 1) :
    qinterp s h1 ≤ qinterp s h2 := by
  have hlen : 1 ≤ s.length := by
    by_contra hcon
    have h0 : s.length = 0 := by omega
    rw [h0] at h2n
    norm_num at h2n
    linarith
  have hi10 : (0 : Int) ≤ ⌊h1⌋ := by
    rw [Int.le_floor]
    exact_mod_cast h10
  have hi20 : (0 : Int) ≤ ⌊h2⌋ := le_trans hi10 (Int.floor_le_floor h12)
  have hi12 : ⌊h1⌋ ≤ ⌊h2⌋ := Int.floor_le_floor h12
  have hi2n : ⌊h2⌋ ≤ (s.length : Int) - 1 := by
    have := Int.floor_le_floor h2n
    rwa [show ((s.length : Rat) - 1) = (((s.length : Int) - 1 : Int) : Rat) by
      push_cast; ring, Int.floor_intCast] at this
  have hc1 : ((⌊h1⌋.toNat : Int)) = ⌊h1⌋ := Int.toNat_of_nonneg hi10
  have hc2 : ((⌊h2⌋.toNat : Int)) = ⌊h2⌋ := Int.toNat_of_nonneg hi20
  have hg10 : 0 ≤ h1 - ⌊h1⌋ := by
    have := Int.floor_le h1
    linarith
  have hg11 : h1 - ⌊h1⌋ < 1 := by
    have := Int.lt_floor_add_one h1
    linarith
  have hg20 : 0 ≤ h2 - ⌊h2⌋ := by
    have := Int.floor_le h2
    linarith
  unfold qinterp
  by_cases hcase : ⌊h1⌋ = ⌊h2⌋
  · rw [hcase]
    by_cases hbd : ⌊h2⌋.toNat + 1 < s.length
    · have hstep : s.getD ⌊h2⌋.toNat 0 ≤ s.getD (⌊h2⌋.toNat + 1) 0 :=
        hs _ _ (by omega) hbd
      have hstepQ : ((s.getD ⌊h2⌋.toNat 0 : Int) : Rat) ≤
          ((s.getD (⌊h2⌋.toNat + 1) 0 : Int) : Rat) := by exact_mod_cast hstep
      have hgle : h1 - ⌊h2⌋ ≤ h2 - ⌊h2⌋ := by linarith
      nlinarith [mul_le_mul_of_nonneg_right hgle (sub_nonneg.mpr hstepQ)]
    · have hi2top : ⌊h2⌋ = (s.length : Int) - 1 := by omega
      have hg2z : h2 - ⌊h2⌋ = 0 := by
        have hup : h2 - ⌊h2⌋ ≤ 0 := by
          rw [hi2top]
          push_cast
          linarith
        linarith
      have hg1z : h1 - ⌊h2⌋ = 0 := by
        have hup : h1 - ⌊h2⌋ ≤ 0 := by
          rw [hi2top]
          push_cast
          have : h1 ≤ h2 := h12
          linarith
        have hdown : 0 ≤ h1 - ⌊h2⌋ := by
          rw [← hcase]
          exact hg10
        linarith
      rw [hg2z, hg1z]
  · have hlt : ⌊h1⌋ < ⌊h2⌋ := lt_of_le_of_ne hi12 hcase
    have hn1 : ⌊h1⌋.toNat + 1 ≤ ⌊h2⌋.toNat := by omega
    have hn2 : ⌊h2⌋.toNat < s.length := by omega
    have hab : s.getD ⌊h1⌋.toNat 0 ≤ s.getD (⌊h1⌋.toNat + 1) 0 :=
      hs _ _ (by omega) (by omega)
    have habQ : ((s.getD ⌊h1⌋.toNat 0 : Int) : Rat) ≤
        ((s.getD (⌊h1⌋.toNat + 1) 0 : Int) : Rat) := by exact_mod_cast hab
    have hmid : s.getD (⌊h1⌋.toNat + 1) 0 ≤ s.getD ⌊h2⌋.toNat 0 := hs _ _ hn1 hn2
    have hmidQ : ((s.getD (⌊h1⌋.toNat + 1) 0 : Int) : Rat) ≤
        ((s.getD ⌊h2⌋.toNat 0 : Int) : Rat) := by exact_mod_cast hmid
    have hupper : (s.getD ⌊h1⌋.toNat 0 : Rat) +
        (h1 - ⌊h1⌋) * ((s.getD (⌊h1⌋.toNat + 1) 0 : Int) - (s.getD ⌊h1⌋.toNat 0 : Int) : Rat) ≤
        ((s.getD (⌊h1⌋.toNat + 1) 0 : Int) : Rat) := by
      nlinarith [mul_le_mul_of_nonneg_right (le_of_lt hg11) (sub_nonneg.mpr habQ)]
    have hlower : ((s.getD ⌊h2⌋.toNat 0 : Int) : Rat) ≤
        (s.getD ⌊h2⌋.toNat 0 : Rat) +
        (h2 - ⌊h2⌋) * ((s.getD (⌊h2⌋.toNat + 1) 0 : Int) - (s.getD ⌊h2⌋.toNat 0 : Int) : Rat) := by
      by_cases hbd : ⌊h2⌋.toNat + 1 < s.length
      · have hcd : s.getD ⌊h2⌋.toNat 0 ≤ s.getD (⌊h2⌋.toNat + 1) 0 := hs _ _ (by omega) hbd
        have hcdQ : ((s.getD ⌊h2⌋.toNat 0 : Int) : Rat) ≤
            ((s.getD (⌊h2⌋.toNat + 1) 0 : Int) : Rat) := by exact_mod_cast hcd
        nlinarith [mul_nonneg hg20 (sub_nonneg.mpr hcdQ)]
      · have hi2top : ⌊h2⌋ = (s.length : Int) - 1 := by omega
        have hg2z : h2 - ⌊h2⌋ = 0 := by
          have hup : h2 - ⌊h2⌋ ≤ 0 := by
            rw [hi2top]
            push_cast
            linarith
          linarith
        rw [hg2z]
        simp
    calc (s.getD ⌊h1⌋.toNat 0 : Rat) +
        (h1 - ⌊h1⌋) * ((s.getD (⌊h1⌋.toNat + 1) 0 : Int) - (s.getD ⌊h1⌋.toNat 0 : Int) : Rat)
        ≤ ((s.getD (⌊h1⌋.toNat + 1) 0 : Int) : Rat) := hupper
      _ ≤ ((s.getD ⌊h2⌋.toNat 0 : Int) : Rat) := hmidQ
      _ ≤ (s.getD ⌊h2⌋.toNat 0 : Rat) +
          (h2 - ⌊h2⌋) * ((s.getD (⌊h2⌋.toNat + 1) 0 : Int) - (s.getD ⌊h2⌋.toNat 0 : Int) : Rat) :=
        hlower

/-- Helper: round-half-away-from-zero is monotone. -/
theorem rround_mono {a b : Rat} (hab : a ≤ b) : rround a ≤ rround b := by
  unfold rround
  by_cases ha : a < 0
  · rw [if_pos ha]
    by_cases hb : b < 0
    · rw [if_pos hb]
      have : ⌊-b + 1/2⌋ ≤ ⌊-a + 1/2⌋ := Int.floor_le_floor (by linarith)
      omega
    · rw [if_neg hb]
      have h1 : (0 : Int) ≤ ⌊-a + 1/2⌋ := by
        rw [Int.le_floor]
        push_cast
        linarith
      have h2 : (0 : Int) ≤ ⌊b + 1/2⌋ := by
        rw [Int.le_floor]
        push_cast
        have := not_lt.mp hb
        linarith
      omega
  · rw [if_neg ha]
    have hb : ¬ b < 0 := by
      have := not_lt.mp ha
      intro hcon
      linarith
    rw [if_neg hb]
    exact Int.floor_le_floor (by linarith)

/-- C9: quantile monotonicity.  For any fixed list of minimum-speed observations
and percentile ranks `p ≤ q ≤ 100`, the reported (rounded continuous-quantile)
value at `q` is never below the value at `p` — in particular P95 ≥ P90 ≥ P85 for
the same grouping in `get_summary` / `get_overall_stats`. -/
theorem c9_quantile_monotone (obs : List Int) (p q : Nat) (hobs : obs ≠ [])
    (hpq : p ≤ q) (hq100 : q ≤ 100) :
    duckRound (quantileCont obs (pctFrac p)) ≤ duckRound (quantileCont obs (pctFrac q)) := by
  have hlen : 1 ≤ obs.length := List.length_pos.mpr hobs
  have hslen : (List.insertionSort (fun a b : Int => a ≤ b) obs).length = obs.length :=
    List.length_insertionSort _ _
  have hsorted : List.Sorted (fun a b : Int => a ≤ b)
      (List.insertionSort (fun a b : Int => a ≤ b) obs) :=
    List.sorted_insertionSort _ _
  have hnn : (0 : Rat) ≤ (((obs.length : Int) - 1 : Int) : Rat) := by
    push_cast
    have : (1 : Rat) ≤ (obs.length : Rat) := by exact_mod_cast hlen
    linarith
  rw [duckRound_eq_rround _ (quantileCont_pos obs (pctFrac p) (Frac.pctFrac_pos p)),
    duckRound_eq_rround _ (quantileCont_pos obs (pctFrac q) (Frac.pctFrac_pos q))]
  apply rround_mono
  rw [quantileCont_val obs (pctFrac p) (Frac.pctFrac_pos p),
    quantileCont_val obs (pctFrac q) (Frac.pctFrac_pos q)]
  apply qinterp_mono _ (sorted_getD_le _ hsorted)
  · apply mul_nonneg hnn
    rw [Frac.pctFrac_val]
    positivity
  · apply mul_le_mul_of_nonneg_left _ hnn
    rw [Frac.pctFrac_val, Frac.pctFrac_val]
    have : (p : Rat) ≤ (q : Rat) := by exact_mod_cast hpq
    linarith
  · rw [hslen, Frac.pctFrac_val]
    have hfrac : (q : Rat) / 100 ≤ 1 := by
      rw [div_le_one (by norm_num : (0 : Rat) < 100)]
      exact_mod_cast hq100
    have := mul_le_mul_of_nonneg_left hfrac hnn
    push_cast
    push_cast at this
    linarith

/-- C9 witness: the theorem applied to concrete observations and the ranks 85, 95. -/
theorem c9_quantile_monotone_witness :
    ([3, 1, 2] ≠ ([] : List Int)) ∧ 85 ≤ 95 ∧ 95 ≤ 100 ∧
      duckRound (quantileCont [3, 1, 2] (pctFrac 85)) ≤
        duckRound (quantileCont [3, 1, 2] (pctFrac 95)) :=
  ⟨by decide, by decide, by decide,
   c9_quantile_monotone [3, 1, 2] 85 95 (by decide) (by decide) (by decide)⟩
